import Mathlib

/-!
Verification of the translation-memory service (`index.ts`): text
normalization, sentence-segmentation glue, the Dice similarity scorer and
its 50% reuse threshold, the bulk upsert engine of `/add-translation`, and
the read-only `/translate` flow.  Strings are modelled as Lean `String`
(a list of Unicode scalar values); the Elasticsearch retrieval oracle and
the sbd sentence tokenizer are opaque external collaborators and enter the
embedding as function parameters; numeric similarity is computed in `ℚ`
(JavaScript doubles are exact at every value any claim touches).
-/

/-- Characters matched by JavaScript `\s` and removed by `String.prototype.trim`:
tab, LF, VT, FF, CR, space, NBSP, Ogham space, the U+2000 range, line and
paragraph separators, narrow NBSP, math space, ideographic space, BOM. -/
def jsWsCodes : List Nat :=
  [0x9, 0xA, 0xB, 0xC, 0xD, 0x20, 0xA0, 0x1680,
   0x2000, 0x2001, 0x2002, 0x2003, 0x2004, 0x2005, 0x2006, 0x2007,
   0x2008, 0x2009, 0x200A, 0x2028, 0x2029, 0x202F, 0x205F, 0x3000, 0xFEFF]

/-- Whether a character is JavaScript whitespace. -/
def isJsWs (c : Char) : Bool := jsWsCodes.contains c.toNat

/-- Code-point ranges of the Unicode classes `Emoji_Presentation` and
`Extended_Pictographic` (union of both, per UCD emoji-data; regional
indicators and skin-tone modifiers are Emoji_Presentation and merge into
the 1F1AD..1F1FF and 1F249..1F3FF ranges).  These are the two classes the
normalizer's second regular expression removes. -/
def emojiRanges : List (Nat × Nat) :=
  [(0xA9, 0xA9), (0xAE, 0xAE), (0x203C, 0x203C), (0x2049, 0x2049),
   (0x2122, 0x2122), (0x2139, 0x2139), (0x2194, 0x2199), (0x21A9, 0x21AA),
   (0x231A, 0x231B), (0x2328, 0x2328), (0x2388, 0x2388), (0x23CF, 0x23CF),
   (0x23E9, 0x23F3), (0x23F8, 0x23FA), (0x24C2, 0x24C2), (0x25AA, 0x25AB),
   (0x25B6, 0x25B6), (0x25C0, 0x25C0), (0x25FB, 0x25FE), (0x2600, 0x2605),
   (0x2607, 0x2612), (0x2614, 0x2685), (0x2690, 0x2705), (0x2708, 0x2712),
   (0x2714, 0x2714), (0x2716, 0x2716), (0x271D, 0x271D), (0x2721, 0x2721),
   (0x2728, 0x2728), (0x2733, 0x2734), (0x2744, 0x2744), (0x2747, 0x2747),
   (0x274C, 0x274C), (0x274E, 0x274E), (0x2753, 0x2755), (0x2757, 0x2757),
   (0x2763, 0x2767), (0x2795, 0x2797), (0x27A1, 0x27A1), (0x27B0, 0x27B0),
   (0x27BF, 0x27BF), (0x2934, 0x2935), (0x2B05, 0x2B07), (0x2B1B, 0x2B1C),
   (0x2B50, 0x2B50), (0x2B55, 0x2B55), (0x3030, 0x3030), (0x303D, 0x303D),
   (0x3297, 0x3297), (0x3299, 0x3299), (0x1F000, 0x1F0FF), (0x1F10D, 0x1F10F),
   (0x1F12F, 0x1F12F), (0x1F16C, 0x1F171), (0x1F17E, 0x1F17F),
   (0x1F18E, 0x1F18E), (0x1F191, 0x1F19A), (0x1F1AD, 0x1F1FF),
   (0x1F201, 0x1F20F), (0x1F21A, 0x1F21A), (0x1F22F, 0x1F22F),
   (0x1F232, 0x1F23A), (0x1F23C, 0x1F23F), (0x1F249, 0x1F3FF),
   (0x1F400, 0x1F53D), (0x1F546, 0x1F64F), (0x1F680, 0x1F6FF),
   (0x1F774, 0x1F77F), (0x1F7D5, 0x1F7FF), (0x1F80C, 0x1F80F),
   (0x1F848, 0x1F84F), (0x1F85A, 0x1F85F), (0x1F888, 0x1F88F),
   (0x1F8AE, 0x1F8FF), (0x1F90C, 0x1F93A), (0x1F93C, 0x1F945),
   (0x1F947, 0x1FAFF), (0x1FC00, 0x1FFFD)]

/-- Whether a character is removed by the emoji/pictographic regular
expression of `normalize_text`. -/
def isEmoji (c : Char) : Bool :=
  emojiRanges.any (fun r => decide (r.1 ≤ c.toNat) && decide (c.toNat ≤ r.2))

/-- Suffix of the list strictly after the first `>` character, or `none`
when the list has no `>`.  This is the span consumed by `[^>]*>` once a
`<` has opened a potential tag. -/
def afterGt : List Char → Option (List Char)
  | [] => none
  | c :: rest => if c = '>' then some rest else afterGt rest

/-- Single left-to-right scan implementing the global replacement of
`<[^>]*>` by the empty string.  `buf` is `some` while the scan sits inside
a potential tag opened by `<`: on a later `>` the whole buffered span is
dropped; if the input ends first, the buffered characters were not part of
any match and are emitted verbatim. -/
def rtGo : List Char → Option (List Char) → List Char
  | [], none => []
  | [], some buf => buf.reverse
  | c :: rest, none =>
    if c = '<' then rtGo rest (some [c]) else c :: rtGo rest none
  | c :: rest, some buf =>
    if c = '>' then rtGo rest none else rtGo rest (some (c :: buf))

/-- Removal of every match of the tag regular expression `<[^>]*>`
(global, leftmost, greedy — which for this pattern means: from each
unconsumed `<` that has a later `>`, up to the first such `>`). -/
def removeTags (l : List Char) : List Char := rtGo l none

/-- Left-then-right whitespace trim, as `String.prototype.trim`. -/
def jsTrimList (l : List Char) : List Char :=
  ((l.dropWhile isJsWs).reverse.dropWhile isJsWs).reverse

/-- Character-level body of `normalize_text`: strip tags, then strip
emoji/pictographic characters, then trim — in the order the three chained
calls appear in the source. -/
def normChars (l : List Char) : List Char :=
  jsTrimList ((removeTags l).filter (fun c => !isEmoji c))

/-- The `normalize_text` function of `index.ts`: removes HTML-like tags and
emoji/pictographic code points and trims whitespace. -/
def normalize_text (s : String) : String := ⟨normChars s.data⟩

/-- JavaScript runtime behaviour of a call `normalize_text(x)` where `x`
may be `undefined` (as at the `/add-translation` call sites, which invoke
`normalize_text(source_text)` and `normalize_text(translated_text!)` on
unvalidated request fields): property access `str.replace` on `undefined`
throws a `TypeError` instead of returning a string. -/
def normalize_text_runtime : Option String → Except String String
  | none => Except.error "TypeError"
  | some s => Except.ok (normalize_text s)

/-- String-level trim, used on each sentence produced by the tokenizer. -/
def js_trim (s : String) : String := ⟨jsTrimList s.data⟩

/-- A list of characters is tag-free when no `<` is followed (anywhere
later) by a `>`; such a list contains no match of `<[^>]*>`. -/
def TagFree : List Char → Prop
  | [] => True
  | c :: rest => (c = '<' → '>' ∉ rest) ∧ TagFree rest

theorem tagFree_nil : TagFree [] := trivial

theorem tagFree_cons {c : Char} {rest : List Char} :
    TagFree (c :: rest) ↔ (c = '<' → '>' ∉ rest) ∧ TagFree rest := Iff.rfl

theorem tagFree_of_not_mem_gt : ∀ {l : List Char}, '>' ∉ l → TagFree l
  | [], _ => trivial
  | _ :: _rest, h =>
    ⟨fun _ hm => h (List.mem_cons_of_mem _ hm),
     tagFree_of_not_mem_gt (fun hm => h (List.mem_cons_of_mem _ hm))⟩

theorem afterGt_eq_none {l : List Char} : afterGt l = none ↔ '>' ∉ l := by
  induction l with
  | nil => simp [afterGt]
  | cons c rest ih =>
    by_cases hc : c = '>'
    · subst hc; simp [afterGt]
    · simp [afterGt, hc, ih, Ne.symm hc]

theorem afterGt_some_length : ∀ {l r : List Char}, afterGt l = some r →
    r.length < l.length := by
  intro l
  induction l with
  | nil => intro r h; simp [afterGt] at h
  | cons c rest ih =>
    intro r h
    by_cases hc : c = '>'
    · subst hc; simp [afterGt] at h; subst h; simp
    · simp only [afterGt, if_neg hc] at h
      exact Nat.lt_trans (ih h) (by simp)

theorem afterGt_some_sublist : ∀ {l r : List Char}, afterGt l = some r →
    List.Sublist r l := by
  intro l
  induction l with
  | nil => intro r h; simp [afterGt] at h
  | cons c rest ih =>
    intro r h
    by_cases hc : c = '>'
    · subst hc; simp [afterGt] at h; subst h; exact List.sublist_cons_self _ _
    · simp only [afterGt, if_neg hc] at h
      exact (ih h).trans (List.sublist_cons_self _ _)

theorem rtGo_some (l : List Char) : ∀ buf : List Char,
    rtGo l (some buf) =
      (match afterGt l with
       | some r => rtGo r none
       | none => buf.reverse ++ l) := by
  induction l with
  | nil => intro buf; simp [rtGo, afterGt]
  | cons c rest ih =>
    intro buf
    by_cases hc : c = '>'
    · subst hc; simp [rtGo, afterGt]
    · simp only [rtGo, if_neg hc, afterGt, ih]
      cases afterGt rest with
      | some r => rfl
      | none => simp

theorem removeTags_nil : removeTags [] = [] := rfl

theorem removeTags_cons_ne {c : Char} (rest : List Char) (hc : c ≠ '<') :
    removeTags (c :: rest) = c :: removeTags rest := by
  simp [removeTags, rtGo, hc]

theorem removeTags_lt_some {rest r : List Char} (h : afterGt rest = some r) :
    removeTags ('<' :: rest) = removeTags r := by
  simp [removeTags, rtGo, rtGo_some, h]

theorem removeTags_lt_none {rest : List Char} (h : afterGt rest = none) :
    removeTags ('<' :: rest) = '<' :: rest := by
  simp [removeTags, rtGo, rtGo_some, h]

theorem removeTags_sublist_aux : ∀ n, ∀ l : List Char, l.length ≤ n →
    List.Sublist (removeTags l) l := by
  intro n
  induction n with
  | zero =>
    intro l hl
    have : l = [] := List.length_eq_zero.mp (Nat.le_zero.mp hl)
    subst this; simp [removeTags_nil]
  | succ n ih =>
    intro l hl
    match l with
    | [] => simp [removeTags_nil]
    | c :: rest =>
      by_cases hc : c = '<'
      · subst hc
        cases hA : afterGt rest with
        | none => rw [removeTags_lt_none hA]
        | some r =>
          rw [removeTags_lt_some hA]
          have h1 : List.Sublist r rest := afterGt_some_sublist hA
          have h2 : r.length ≤ n := by
            have := afterGt_some_length hA
            simp at hl; omega
          exact ((ih r h2).trans h1).trans (List.sublist_cons_self _ _)
      · rw [removeTags_cons_ne rest hc]
        have : rest.length ≤ n := by simp at hl; omega
        exact List.Sublist.cons₂ c (ih rest this)

theorem removeTags_sublist (l : List Char) : List.Sublist (removeTags l) l :=
  removeTags_sublist_aux l.length l (le_refl _)

theorem removeTags_tagFree_aux : ∀ n, ∀ l : List Char, l.length ≤ n →
    TagFree (removeTags l) := by
  intro n
  induction n with
  | zero =>
    intro l hl
    have : l = [] := List.length_eq_zero.mp (Nat.le_zero.mp hl)
    subst this; exact tagFree_nil
  | succ n ih =>
    intro l hl
    match l with
    | [] => exact tagFree_nil
    | c :: rest =>
      by_cases hc : c = '<'
      · subst hc
        cases hA : afterGt rest with
        | none =>
          rw [removeTags_lt_none hA]
          have hng : '>' ∉ rest := afterGt_eq_none.mp hA
          exact ⟨fun _ => hng, tagFree_of_not_mem_gt hng⟩
        | some r =>
          rw [removeTags_lt_some hA]
          have h2 : r.length ≤ n := by
            have := afterGt_some_length hA
            simp at hl; omega
          exact ih r h2
      · rw [removeTags_cons_ne rest hc]
        have h2 : rest.length ≤ n := by simp at hl; omega
        exact ⟨fun h => absurd h hc, ih rest h2⟩

theorem removeTags_tagFree (l : List Char) : TagFree (removeTags l) :=
  removeTags_tagFree_aux l.length l (le_refl _)

theorem removeTags_of_tagFree_aux : ∀ n, ∀ l : List Char, l.length ≤ n →
    TagFree l → removeTags l = l := by
  intro n
  induction n with
  | zero =>
    intro l hl _
    have : l = [] := List.length_eq_zero.mp (Nat.le_zero.mp hl)
    subst this; rfl
  | succ n ih =>
    intro l hl hf
    match l with
    | [] => rfl
    | c :: rest =>
      have h2 : rest.length ≤ n := by simp at hl; omega
      by_cases hc : c = '<'
      · subst hc
        have hng : '>' ∉ rest := hf.1 rfl
        rw [removeTags_lt_none (afterGt_eq_none.mpr hng)]
      · rw [removeTags_cons_ne rest hc, ih rest h2 hf.2]

theorem removeTags_of_tagFree {l : List Char} (h : TagFree l) :
    removeTags l = l :=
  removeTags_of_tagFree_aux l.length l (le_refl _) h

theorem tagFree_sublist : ∀ {l1 l2 : List Char}, List.Sublist l1 l2 →
    TagFree l2 → TagFree l1 := by
  intro l1 l2 h
  induction h with
  | slnil => intro; exact tagFree_nil
  | cons a _ ih => intro h2; exact ih h2.2
  | cons₂ a hs ih =>
    intro h2
    exact ⟨fun hc hm => h2.1 hc (hs.subset hm), ih h2.2⟩

theorem dropWhile_head_false {p : Char → Bool} :
    ∀ {l t : List Char} {c : Char}, l.dropWhile p = c :: t → p c = false := by
  intro l
  induction l with
  | nil => intro t c h; simp [List.dropWhile] at h
  | cons a rest ih =>
    intro t c h
    by_cases ha : p a
    · rw [List.dropWhile_cons, if_pos ha] at h; exact ih h
    · rw [List.dropWhile_cons, if_neg ha] at h
      cases h; simpa using ha

theorem dropWhile_idem (p : Char → Bool) (l : List Char) :
    (l.dropWhile p).dropWhile p = l.dropWhile p := by
  cases h : l.dropWhile p with
  | nil => rfl
  | cons c t =>
    rw [List.dropWhile_cons, if_neg (by simp [dropWhile_head_false h])]

theorem dropWhile_rdrop {p : Char → Bool} {m : List Char}
    (hm : m.dropWhile p = m) :
    ((m.reverse.dropWhile p).reverse).dropWhile p
      = (m.reverse.dropWhile p).reverse := by
  match m with
  | [] => simp
  | c :: t =>
    have hc : p c = false := by
      by_cases h : p c
      · rw [List.dropWhile_cons, if_pos h] at hm
        have := congrArg List.length hm
        have hle : (t.dropWhile p).length ≤ t.length :=
          (List.dropWhile_sublist ..).length_le
        simp at this; omega
      · simpa using h
    rw [List.reverse_cons, List.dropWhile_append]
    by_cases he : t.reverse.dropWhile p = []
    · rw [he]
      simp [List.dropWhile_cons, hc]
    · have he2 : (t.reverse.dropWhile p).isEmpty = false := by
        simpa [List.isEmpty_iff] using he
      rw [he2]
      simp [List.reverse_append, List.dropWhile_cons, hc]

theorem jsTrimList_idem (l : List Char) :
    jsTrimList (jsTrimList l) = jsTrimList l := by
  have ha : (l.dropWhile isJsWs).dropWhile isJsWs = l.dropWhile isJsWs :=
    dropWhile_idem isJsWs l
  have h1 : (jsTrimList l).dropWhile isJsWs = jsTrimList l :=
    dropWhile_rdrop ha
  unfold jsTrimList
  rw [show (((l.dropWhile isJsWs).reverse.dropWhile isJsWs).reverse : List Char).dropWhile isJsWs
        = ((l.dropWhile isJsWs).reverse.dropWhile isJsWs).reverse from h1]
  rw [List.reverse_reverse, dropWhile_idem]

theorem jsTrimList_sublist (l : List Char) :
    List.Sublist (jsTrimList l) l := by
  unfold jsTrimList
  have h1 : List.Sublist ((l.dropWhile isJsWs).reverse.dropWhile isJsWs)
      (l.dropWhile isJsWs).reverse := List.dropWhile_sublist ..
  have h2 := h1.reverse
  rw [List.reverse_reverse] at h2
  exact h2.trans (List.dropWhile_sublist ..)

theorem normChars_idem (l : List Char) : normChars (normChars l) = normChars l := by
  have h1 : TagFree (removeTags l) := removeTags_tagFree l
  have hsub1 : List.Sublist ((removeTags l).filter (fun c => !isEmoji c))
      (removeTags l) := List.filter_sublist _
  have h2 : TagFree ((removeTags l).filter (fun c => !isEmoji c)) :=
    tagFree_sublist hsub1 h1
  have hsub2 : List.Sublist (normChars l)
      ((removeTags l).filter (fun c => !isEmoji c)) := jsTrimList_sublist _
  have h3 : TagFree (normChars l) := tagFree_sublist hsub2 h2
  have e1 : removeTags (normChars l) = normChars l := removeTags_of_tagFree h3
  have hall : ∀ c ∈ normChars l, (!isEmoji c) = true := by
    intro c hc
    exact (List.mem_filter.mp (hsub2.subset hc)).2
  have e2 : (normChars l).filter (fun c => !isEmoji c) = normChars l :=
    List.filter_eq_self.mpr hall
  show jsTrimList ((removeTags (normChars l)).filter (fun c => !isEmoji c))
      = normChars l
  rw [e1, e2]
  exact jsTrimList_idem _

/-- C9: the text normalizer is idempotent — for every string `x`,
`normalize_text (normalize_text x) = normalize_text x`.  Tag removal
leaves no `<` followed by a later `>` (so the second pass finds no match),
emoji removal is a filter, trim is idempotent, and each later stage
preserves the earlier stages' guarantees because each only deletes
characters. -/
theorem normalize_text_idempotent (x : String) :
    normalize_text (normalize_text x) = normalize_text x :=
  congrArg String.mk (normChars_idem x.data)

/-- C4 counterexample: calling the text normalizer on an undefined value —
as `/add-translation` does before validation when a request field is
missing — throws a `TypeError`; it does not return the empty string, so
the normalizer is not total on undefined input. -/
theorem normalize_undefined_counterexample :
    normalize_text_runtime none = Except.error "TypeError" ∧
      normalize_text_runtime none ≠ Except.ok "" :=
  ⟨rfl, fun h => by simp [normalize_text_runtime] at h⟩

/-- C4 (amended): the text normalizer is total on every string input —
for every string the runtime call returns normally, and the empty string
yields the empty string.  An undefined/missing value is not handled: it
raises a `TypeError` (see the counterexample). -/
theorem normalize_total_amended (s : String) :
    normalize_text_runtime (some s) = Except.ok (normalize_text s) ∧
      normalize_text "" = "" :=
  ⟨rfl, rfl⟩

/-- Whitespace removal performed by the scorer before comparing
(`replace(/\s+/g, "")` in `compareTwoStrings`). -/
def stripJsWs (l : List Char) : List Char := l.filter (fun c => !isJsWs c)

/-- Overlapping character bigrams of a list, in order. -/
def bigramsOf : List Char → List (Char × Char)
  | a :: b :: rest => (a, b) :: bigramsOf (b :: rest)
  | _ => []

/-- Lookup in the insertion-ordered association list modelling the
JavaScript `Map` of bigram counts. -/
def mapGetCount (m : List ((Char × Char) × Nat)) (g : Char × Char) : Option Nat :=
  (m.find? (fun e => e.1 == g)).map (fun e => e.2)

/-- Update of the bigram-count map: replaces the entry in place when the
key is present (as `Map.set`), appends otherwise. -/
def mapSetCount (m : List ((Char × Char) × Nat)) (g : Char × Char) (v : Nat) :
    List ((Char × Char) × Nat) :=
  match m with
  | [] => [(g, v)]
  | e :: rest => if e.1 == g then (g, v) :: rest else e :: mapSetCount rest g v

/-- First loop of `compareTwoStrings`: count every bigram of the first
string into the map. -/
def buildBigrams : List (Char × Char) → List ((Char × Char) × Nat) →
    List ((Char × Char) × Nat)
  | [], m => m
  | g :: gs, m => buildBigrams gs (mapSetCount m g ((mapGetCount m g).getD 0 + 1))

/-- Second loop of `compareTwoStrings`: for each bigram of the second
string with a positive remaining count, decrement it and count one shared
bigram. -/
def countIntersection : List (Char × Char) → List ((Char × Char) × Nat) → Nat → Nat
  | [], _, acc => acc
  | g :: gs, m, acc =>
    match mapGetCount m g with
    | some c => if 0 < c then countIntersection gs (mapSetCount m g (c - 1)) (acc + 1)
                else countIntersection gs m acc
    | none => countIntersection gs m acc

/-- The `compareTwoStrings` Dice-coefficient scorer of the
`string-similarity` package, which `fuzzy_search` applies to the query
segment and the retrieved hit's stored source text: strip whitespace;
identical strings (including both empty) score 1; otherwise a string
shorter than two characters scores 0; otherwise twice the shared-bigram
count over the total bigram count.  Arithmetic is exact in `ℚ`; the
JavaScript doubles agree at every value the claims touch. -/
def compareTwoStrings (a b : String) : ℚ :=
  let f := stripJsWs a.data
  let s := stripJsWs b.data
  if f = s then 1
  else if f.length < 2 ∨ s.length < 2 then 0
  else
    let inter := countIntersection (bigramsOf s) (buildBigrams (bigramsOf f) []) 0
    (2 * inter : ℚ) / ((f.length + s.length - 2 : ℕ) : ℚ)

/-- Rounding to two decimal places as `Number.prototype.toFixed(2)` (ties
pick the larger candidate) followed by unary plus. -/
def toFixed2 (x : ℚ) : ℚ := ((⌊100 * x + 1 / 2⌋ : ℤ) : ℚ) / 100

/-- The similarity percentage computed inside `fuzzy_search`:
`+(similarity * 100).toFixed(2)`. -/
def percentage (q t : String) : ℚ := toFixed2 (100 * compareTwoStrings q t)

/-- Evaluation helper: `toFixed2` is the identity on integer values,
since the added half is floored away. -/
theorem toFixed2_coe_int (n : ℤ) : toFixed2 ((n : ℚ)) = (n : ℚ) := by
  unfold toFixed2
  have h1 : (100 : ℚ) * (n : ℚ) + 1 / 2 = ((100 * n : ℤ) : ℚ) + 1 / 2 := by
    push_cast; ring
  have h2 : ⌊(1 / 2 : ℚ)⌋ = 0 := Int.floor_eq_iff.mpr (by norm_num)
  rw [h1, Int.floor_int_add, h2]
  push_cast
  field_simp

/-- Evaluation helper: the percentage computed by `fuzzy_search` at a pair
of strings whose doubled raw score is the integer `n` is exactly `n`. -/
theorem percentage_eq_of (q t : String) (n : ℤ)
    (h : 100 * compareTwoStrings q t = (n : ℚ)) : percentage q t = (n : ℚ) := by
  unfold percentage
  rw [h, toFixed2_coe_int]

/-- Unfolding helper: the value of the scorer on whitespace-stripped
unequal strings of length at least two is the Dice ratio. -/
theorem compareTwoStrings_formula (a b : String)
    (h1 : stripJsWs a.data ≠ stripJsWs b.data)
    (h2 : ¬((stripJsWs a.data).length < 2 ∨ (stripJsWs b.data).length < 2)) :
    compareTwoStrings a b =
      (2 * (countIntersection (bigramsOf (stripJsWs b.data))
          (buildBigrams (bigramsOf (stripJsWs a.data)) []) 0) : ℚ) /
        (((stripJsWs a.data).length + (stripJsWs b.data).length - 2 : ℕ) : ℚ) := by
  unfold compareTwoStrings
  rw [if_neg h1, if_neg h2]

/-- C6 counterexample: the scorer strips whitespace and checks identity
before the length check, so `score("a", " a")` — where `"a"` has fewer
than two characters and the two strings are not identical — returns 100,
not 0. -/
theorem scorer_short_identical_counterexample :
    ("a" : String).length < 2 ∧ ("a" : String) ≠ " a" ∧
      percentage "a" " a" = 100 ∧ percentage "a" " a" ≠ 0 := by
  have h : compareTwoStrings "a" " a" = 1 := rfl
  have h100 : percentage "a" " a" = ((100 : ℤ) : ℚ) :=
    percentage_eq_of "a" " a" 100 (by rw [h]; norm_num)
  refine ⟨by decide, by decide, by rw [h100]; norm_num, by rw [h100]; norm_num⟩

/-- C6 (amended): the Similarity Scorer returns 100 whenever the two
strings are identical, and returns 0 when either string has fewer than two
characters after whitespace removal, provided the whitespace-stripped
strings differ (identity, checked first and after whitespace stripping,
takes precedence and yields 100 even for short or empty strings); the
scorer is a total function, so no input — including the empty string —
raises an exception. -/
theorem scorer_amended (a b : String) :
    (a = b → percentage a b = 100) ∧
      (stripJsWs a.data ≠ stripJsWs b.data →
        ((stripJsWs a.data).length < 2 ∨ (stripJsWs b.data).length < 2) →
        percentage a b = 0) := by
  constructor
  · intro h
    subst h
    have h1 : compareTwoStrings a a = 1 := by
      unfold compareTwoStrings
      simp
    have := percentage_eq_of a a 100 (by rw [h1]; norm_num)
    rw [this]; norm_num
  · intro hne hlen
    have h1 : compareTwoStrings a b = 0 := by
      unfold compareTwoStrings
      simp only [if_neg hne, if_pos hlen]
    have := percentage_eq_of a b 0 (by rw [h1]; norm_num)
    rw [this]; norm_num

/-- C6 witness: evaluating the amended claim — identical strings score
100, and a short string distinct from the other scores 0. -/
theorem scorer_amended_witness :
    percentage "xy" "xy" = 100 ∧ percentage "a" "bc" = 0 :=
  ⟨(scorer_amended "xy" "xy").1 rfl,
   (scorer_amended "a" "bc").2 (by decide) (by decide)⟩

/-- The fixed set of target languages for which the add flow skips
sentence segmentation. -/
def non_segment_languages : List String :=
  ["arabic", "japanese", "korean", "simplified-chinese", "traditional-chinese"]

/-- The two-argument `split_segments` used by `/add-translation`: tokenize
source and translated text independently (each sentence trimmed); when the
two sequences have equal length keep them, otherwise fall back to the
whole trimmed source and whole trimmed target as one segment each.  The
sbd tokenizer is an external library and enters as the `sentences`
parameter. -/
def split_segments_pair (sentences : String → List String) (st tt : String) :
    List String × List String :=
  let ss := (sentences st).map js_trim
  let ts := (sentences tt).map js_trim
  if ss.length = ts.length then (ss, ts) else ([js_trim st], [js_trim tt])

/-- The one-argument `split_segments` call used by `/translate`: only the
source text is tokenized. -/
def split_segments_source (sentences : String → List String) (st : String) :
    List String :=
  (sentences st).map js_trim

/-- Segment computation of the add flow: the whole normalized texts when
the target language is non-segmenting, the aligned split otherwise
(`source_text` and `translated_text` here are already normalized). -/
def add_segments (sentences : String → List String) (tl st tt : String) :
    List String × List String :=
  if tl ∈ non_segment_languages then ([st], [tt])
  else split_segments_pair sentences st tt

/-- Segment computation of the translate flow: `split_segments` is applied
unconditionally — the route has no check of `non_segment_languages`. -/
def translate_segments (sentences : String → List String) (st : String) :
    List String :=
  split_segments_source sentences st

/-- Stand-in for the sbd tokenizer at the repository's own README example:
`"Hello. How are you?"` splits into two sentences. -/
def demo_sentences : String → List String :=
  fun s => if s = "Hello. How are you?" then ["Hello.", "How are you?"] else [s]

/-- Stand-in for the sbd tokenizer at the spec's alignment example, where
source and target segment counts differ. -/
def mismatch_sentences : String → List String :=
  fun s => if s = "A. B." then ["A.", "B."] else [s]

/-- C8: whenever the independent segmentations of source and target differ
in length, `split_segments` discards both and returns exactly one aligned
pair — the entire trimmed source text and the entire trimmed target text —
for every tokenizer. -/
theorem alignment_fallback (sentences : String → List String) (st tt : String)
    (h : (sentences st).length ≠ (sentences tt).length) :
    split_segments_pair sentences st tt = ([js_trim st], [js_trim tt]) := by
  unfold split_segments_pair
  rw [if_neg (by simpa using h)]

/-- C8 witness: the spec's own example — source `"A. B."` tokenizes into
two sentences, target `"X."` into one, and the result is the single whole
pair. -/
theorem alignment_fallback_witness :
    (mismatch_sentences "A. B.").length ≠ (mismatch_sentences "X.").length ∧
      split_segments_pair mismatch_sentences "A. B." "X." = (["A. B."], ["X."]) :=
  ⟨by decide,
   (alignment_fallback mismatch_sentences "A. B." "X." (by decide)).trans (by decide)⟩

/-- C3 counterexample: `"japanese"` is in the non-segmenting set, yet the
translate flow still splits `"Hello. How are you?"` into two segments
(under the tokenizer behaviour the repository's README documents for this
very string), not into the single whole-text segment the claim requires. -/
theorem translate_no_bypass_counterexample :
    "japanese" ∈ non_segment_languages ∧
      translate_segments demo_sentences "Hello. How are you?"
        = ["Hello.", "How are you?"] ∧
      translate_segments demo_sentences "Hello. How are you?"
        ≠ ["Hello. How are you?"] := by
  refine ⟨by decide, by decide, by decide⟩

/-- C3 (amended): the add flow does bypass segmentation for the fixed
non-segmenting target languages, treating the whole normalized source and
target texts as one segment each; the translate flow, however, applies
sentence segmentation unconditionally — its segments are the trimmed
tokenizer output regardless of the target language. -/
theorem segmentation_bypass_amended (sentences : String → List String)
    (tl st tt : String) :
    (tl ∈ non_segment_languages → add_segments sentences tl st tt = ([st], [tt])) ∧
      translate_segments sentences st = (sentences st).map js_trim := by
  constructor
  · intro h
    unfold add_segments
    rw [if_pos h]
  · rfl

/-- C3 amended-claim witness: the bypass in the add flow and the
unconditional split in the translate flow, both at the README example with
target language `"japanese"`. -/
theorem segmentation_bypass_amended_witness :
    add_segments demo_sentences "japanese" "Hello. How are you?" "Konnichiwa."
        = (["Hello. How are you?"], ["Konnichiwa."]) ∧
      translate_segments demo_sentences "Hello. How are you?"
        = (demo_sentences "Hello. How are you?").map js_trim :=
  ⟨(segmentation_bypass_amended demo_sentences "japanese"
      "Hello. How are you?" "Konnichiwa.").1 (by decide),
   (segmentation_bypass_amended demo_sentences "japanese"
      "Hello. How are you?" "Konnichiwa.").2⟩

/-- Lowercasing as applied on both sides of the dedup comparison: the
query side by `source_text.toLowerCase()` and the stored side by the
`lowercase` keyword normalizer of the `source_text.dedup` field (modelled
on the letter range Lean lowers; every claim instance is within it). -/
def js_toLowerCase (s : String) : String := ⟨s.data.map Char.toLower⟩

/-- A stored translation segment (`TranslationDocument` with all fields
present, as written by the upsert engine). -/
structure Doc where
  source_lang : String
  target_lang : String
  source_text : String
  translated_text : String
deriving DecidableEq

/-- The per-target-language segment store: identifier/document pairs in
insertion order (identifiers are assigned by the storage oracle). -/
abbrev Store := List (Nat × Doc)

/-- Predicate of the exact `term` lookup: same source language, same
target language, and case-insensitively equal source text. -/
def doc_matches (sl tl low : String) (d : Doc) : Bool :=
  d.source_lang == sl && d.target_lang == tl && js_toLowerCase d.source_text == low

/-- The `find_translation_segment` exact lookup (`size: 1`): the first
stored segment whose keys match, lowercasing the query. -/
def find_translation_segment (store : Store) (sl tl txt : String) :
    Option (Nat × Doc) :=
  store.find? (fun e => doc_matches sl tl (js_toLowerCase txt) e.2)

/-- Number of stored segments matching an exact-lookup key. -/
def count_matches (store : Store) (sl tl low : String) : Nat :=
  store.countP (fun e => doc_matches sl tl low e.2)

/-- The dedup invariant of the spec: per (sourceLanguage, targetLanguage),
at most one stored segment matches any given source text
case-insensitively. -/
def dedup_invariant (store : Store) : Prop :=
  ∀ sl tl low, count_matches store sl tl low ≤ 1

/-- Outcome label of one segment of an add request (`"inserted"` or
`"updated"` in the response). -/
inductive SegAction where
  | inserted
  | updated
deriving DecidableEq

/-- One entry of the `/add-translation` response. -/
structure SegResult where
  segment : String
  id : Option Nat
  action : SegAction
deriving DecidableEq

/-- One operation of the bulk body (the JavaScript bulk body holds two
array entries per operation; one constructor models the pair). -/
inductive BulkOp where
  | update (id : Nat) (translated : String)
  | insert (doc : Doc)
deriving DecidableEq

/-- One item of the bulk response: an object keyed by the operation kind,
carrying the document identifier. -/
inductive BulkItem where
  | updateItem (id : Nat)
  | indexItem (id : Nat)
deriving DecidableEq

/-- The per-segment loop of `/add-translation`: for each (source segment,
translated segment) pair, an exact hit against the pre-request store emits
an update of the hit's identifier and an `updated` result carrying it,
and a miss emits an insert and an `inserted` result with identifier still
null.  All lookups are issued against the store as it was before any
write, exactly as the code gathers all hits before building the body. -/
def add_build (store : Store) (sl tl : String) :
    List (String × String) → List BulkOp × List SegResult
  | [] => ([], [])
  | (seg, tseg) :: rest =>
    let r := add_build store sl tl rest
    match find_translation_segment store sl tl seg with
    | some e => (BulkOp.update e.1 tseg :: r.1, ⟨seg, some e.1, SegAction.updated⟩ :: r.2)
    | none => (BulkOp.insert ⟨sl, tl, seg, tseg⟩ :: r.1,
               ⟨seg, none, SegAction.inserted⟩ :: r.2)

/-- The storage oracle executing the bulk body in order: an update
overwrites the translated text of the identified document, an insert
appends the document under a fresh identifier; the response lists one item
per operation, in operation order, keyed by the operation kind. -/
def bulk_apply : Store → Nat → List BulkOp → Store × List BulkItem
  | store, _, [] => (store, [])
  | store, nid, BulkOp.update id t :: ops =>
    let r := bulk_apply
      (store.map (fun e => if e.1 = id then (e.1, { e.2 with translated_text := t }) else e))
      nid ops
    (r.1, BulkItem.updateItem id :: r.2)
  | store, nid, BulkOp.insert d :: ops =>
    let r := bulk_apply (store ++ [(nid, d)]) (nid + 1) ops
    (r.1, BulkItem.indexItem nid :: r.2)

/-- The expression `bulkResponse.items[k]?.index?._id || null`: the
identifier under the `index` key of the k-th response item, null when the
item is missing or is not an index (insert) item. -/
def itemIndexId (items : List BulkItem) (k : Nat) : Option Nat :=
  match items.get? k with
  | some (BulkItem.indexItem id) => some id
  | _ => none

/-- The id-resolution loop of `/add-translation`: walk the results in
order keeping a counter of inserted results only, and give the i-th
inserted result the identifier found under the `index` key of response
item number (count of previous inserts). -/
def resolve_ids (items : List BulkItem) : List SegResult → Nat → List SegResult
  | [], _ => []
  | r :: rest, k =>
    if r.action = SegAction.inserted then
      { r with id := itemIndexId items k } :: resolve_ids items rest (k + 1)
    else
      r :: resolve_ids items rest k

/-- The upsert engine of `/add-translation` after normalization and
segmentation: build the bulk body and results from the pre-request store,
submit the batch when non-empty, and resolve inserted identifiers from the
response items. -/
def add_translation_core (store : Store) (nid : Nat) (sl tl : String)
    (pairs : List (String × String)) : Store × List SegResult :=
  let br := add_build store sl tl pairs
  if br.1.length > 0 then
    let ar := bulk_apply store nid br.1
    (ar.1, resolve_ids ar.2 br.2 0)
  else (store, br.2)

/-- Whether a bulk operation is an insert whose document matches an
exact-lookup key. -/
def insert_matches (sl tl low : String) (op : BulkOp) : Bool :=
  match op with
  | BulkOp.insert d => doc_matches sl tl low d
  | _ => false

theorem count_matches_bulk_apply : ∀ (ops : List BulkOp) (store : Store)
    (nid : Nat) (sl tl low : String),
    count_matches (bulk_apply store nid ops).1 sl tl low
      = count_matches store sl tl low + ops.countP (insert_matches sl tl low) := by
  intro ops
  induction ops with
  | nil => intro store nid sl tl low; simp [bulk_apply, count_matches]
  | cons op rest ih =>
    intro store nid sl tl low
    match op with
    | BulkOp.update id t =>
      have hstep : (bulk_apply store nid (BulkOp.update id t :: rest)).1
          = (bulk_apply
              (store.map (fun e =>
                if e.1 = id then (e.1, { e.2 with translated_text := t }) else e))
              nid rest).1 := rfl
      rw [hstep, ih]
      have hmap : count_matches
          (store.map (fun e =>
            if e.1 = id then (e.1, { e.2 with translated_text := t }) else e))
          sl tl low = count_matches store sl tl low := by
        unfold count_matches
        rw [List.countP_map]
        apply List.countP_congr
        intro e _
        by_cases he : e.1 = id
        · simp only [Function.comp, he, if_pos rfl]
          cases e with
          | mk i d => cases d; rfl
        · simp [Function.comp, he]
      rw [hmap, List.countP_cons]
      have h0 : insert_matches sl tl low (BulkOp.update id t) = false := rfl
      rw [h0]
      simp
    | BulkOp.insert d =>
      have hstep : (bulk_apply store nid (BulkOp.insert d :: rest)).1
          = (bulk_apply (store ++ [(nid, d)]) (nid + 1) rest).1 := rfl
      rw [hstep, ih]
      unfold count_matches
      rw [List.countP_append]
      simp only [List.countP_cons, List.countP_nil, insert_matches]
      omega

theorem find_none_count_zero {store : Store} {sl tl txt : String}
    (h : find_translation_segment store sl tl txt = none) :
    count_matches store sl tl (js_toLowerCase txt) = 0 := by
  unfold find_translation_segment at h
  unfold count_matches
  rw [List.countP_eq_zero]
  intro e he
  exact List.find?_eq_none.mp h e he

theorem add_build_no_insert_of_ne : ∀ (rest : List (String × String))
    (store : Store) (sl tl sl2 tl2 low : String),
    (∀ pr ∈ rest, js_toLowerCase pr.1 ≠ low) →
    (add_build store sl tl rest).1.countP (insert_matches sl2 tl2 low) = 0 := by
  intro rest
  induction rest with
  | nil => intro store sl tl sl2 tl2 low _; simp [add_build]
  | cons pr tail ih =>
    intro store sl tl sl2 tl2 low hne
    have htail : ∀ q ∈ tail, js_toLowerCase q.1 ≠ low := by
      intro q hq
      exact hne q (List.mem_cons_of_mem _ hq)
    match pr with
    | (seg, tseg) =>
      have hseg : js_toLowerCase seg ≠ low := hne (seg, tseg) (List.mem_cons_self _ _)
      unfold add_build
      cases hfind : find_translation_segment store sl tl seg with
      | some e =>
        simp only [hfind, List.countP_cons]
        rw [ih store sl tl sl2 tl2 low htail]
        rfl
      | none =>
        simp only [hfind, List.countP_cons]
        rw [ih store sl tl sl2 tl2 low htail]
        have hfalse : insert_matches sl2 tl2 low (BulkOp.insert ⟨sl, tl, seg, tseg⟩)
            = false := by
          simp only [insert_matches, doc_matches]
          simp only [Bool.and_eq_false_iff]
          right
          simpa using hseg
        rw [hfalse]
        simp

theorem core_bound : ∀ (pairs : List (String × String)) (store : Store)
    (sl tl : String),
    pairs.Pairwise (fun a b => js_toLowerCase a.1 ≠ js_toLowerCase b.1) →
    ∀ sl2 tl2 low, count_matches store sl2 tl2 low ≤ 1 →
    count_matches store sl2 tl2 low
      + (add_build store sl tl pairs).1.countP (insert_matches sl2 tl2 low) ≤ 1 := by
  intro pairs
  induction pairs with
  | nil => intro store sl tl _ sl2 tl2 low hst; simpa [add_build] using hst
  | cons pr tail ih =>
    intro store sl tl hp sl2 tl2 low hst
    have hhead : ∀ b ∈ tail, js_toLowerCase pr.1 ≠ js_toLowerCase b.1 :=
      (List.pairwise_cons.mp hp).1
    have htail := (List.pairwise_cons.mp hp).2
    match pr with
    | (seg, tseg) =>
      unfold add_build
      cases hfind : find_translation_segment store sl tl seg with
      | some e =>
        simp only [hfind, List.countP_cons]
        have h0 : insert_matches sl2 tl2 low (BulkOp.update e.1 tseg) = false := rfl
        rw [h0]
        have := ih store sl tl htail sl2 tl2 low hst
        simpa using this
      | none =>
        simp only [hfind, List.countP_cons]
        cases hm : insert_matches sl2 tl2 low (BulkOp.insert ⟨sl, tl, seg, tseg⟩) with
        | false =>
          have := ih store sl tl htail sl2 tl2 low hst
          simpa using this
        | true =>
          have hm2 := hm
          simp only [insert_matches, doc_matches, Bool.and_eq_true, beq_iff_eq] at hm2
          obtain ⟨⟨h1, h2⟩, h3⟩ := hm2
          subst h1
          subst h2
          have hzero : count_matches store sl tl low = 0 := by
            rw [← h3]
            exact find_none_count_zero hfind
          have htail0 : (add_build store sl tl tail).1.countP
              (insert_matches sl tl low) = 0 := by
            apply add_build_no_insert_of_ne
            intro q hq
            rw [← h3]
            exact ((hhead q hq)).symm
          rw [hzero, htail0]
          simp

/-- C1 counterexample: a request whose segmented source text contains the
same sentence twice (here `"Dup."`), against a store where it is absent,
emits two insert operations for it — both lookups run against the
pre-request store and both miss — and afterwards two stored segments match
the same source text, violating the stated invariant. -/
theorem duplicate_insert_counterexample :
    (add_build [] "en" "fr" [("Dup.", "A."), ("Dup.", "B.")]).1.countP
        (insert_matches "en" "fr" "dup.") = 2 ∧
      count_matches (add_translation_core [] 1 "en" "fr"
        [("Dup.", "A."), ("Dup.", "B.")]).1 "en" "fr" "dup." = 2 :=
  ⟨by decide, by decide⟩

/-- C1 (amended): the exact lookup before every write keeps the dedup
invariant across a single add-translation request provided the request's
segments are pairwise distinct case-insensitively: if the store satisfies
the invariant before the request, it satisfies it after the batch write,
and the emitted batch holds at most one insert operation per source-text
key.  A request repeating the same absent sentence emits duplicate inserts
(see the counterexample), so the distinctness hypothesis is necessary. -/
theorem upsert_dedup_amended (store : Store) (nid : Nat) (sl tl : String)
    (pairs : List (String × String))
    (hinv : dedup_invariant store)
    (hdist : pairs.Pairwise (fun a b => js_toLowerCase a.1 ≠ js_toLowerCase b.1)) :
    dedup_invariant (add_translation_core store nid sl tl pairs).1 ∧
      ∀ sl2 tl2 low,
        (add_build store sl tl pairs).1.countP (insert_matches sl2 tl2 low) ≤ 1 := by
  constructor
  · intro sl2 tl2 low
    unfold add_translation_core
    dsimp only
    split
    · rw [count_matches_bulk_apply]
      exact core_bound pairs store sl tl hdist sl2 tl2 low (hinv sl2 tl2 low)
    · exact hinv sl2 tl2 low
  · intro sl2 tl2 low
    have := core_bound pairs store sl tl hdist sl2 tl2 low (hinv sl2 tl2 low)
    omega

/-- C1 amended-claim witness: the end-to-end README example — two distinct
segments added to an empty store leave a store satisfying the dedup
invariant. -/
theorem upsert_dedup_amended_witness :
    dedup_invariant (add_translation_core [] 1 "en" "fr"
      [("Hello.", "Bonjour."), ("How are you?", "Comment va?")]).1 :=
  (upsert_dedup_amended [] 1 "en" "fr"
    [("Hello.", "Bonjour."), ("How are you?", "Comment va?")]
    (fun sl tl low => by simp [count_matches])
    (by decide)).1

/-- The stored state and request segments exhibiting the insert-id bug of
`/add-translation`: `"hello"` is already stored (so it updates) and
`"world"` is new (so it inserts). -/
def c2_store : Store := [(1, ⟨"en", "fr", "hello", "bonjour"⟩)]

/-- Segment pairs of the mixed update/insert request. -/
def c2_pairs : List (String × String) := [("hello", "salut"), ("world", "monde")]

/-- C2: evaluation of the code at the failing input.  The batch response
items are one per operation — `[updateItem 1, indexItem 2]`, so the bulk
write assigned identifier 2 to the segment `"world"` — but the resolution
loop indexes the items by a counter of inserts only, reads item 0 (the
update item), finds no `index` key there, and returns the inserted result
with a null identifier instead of the assigned identifier 2. -/
theorem add_insert_id_mismatch :
    (add_translation_core c2_store 2 "en" "fr" c2_pairs).2
        = [⟨"hello", some 1, SegAction.updated⟩, ⟨"world", none, SegAction.inserted⟩] ∧
      (bulk_apply c2_store 2 (add_build c2_store "en" "fr" c2_pairs).1).2
        = [BulkItem.updateItem 1, BulkItem.indexItem 2] :=
  ⟨by decide, by decide⟩

/-- Post-retrieval filter of `fuzzy_search`: given the top-ranked hit from
the retrieval oracle (an opaque ranked query filtered by language pair),
compute the Dice percentage between the query segment and the hit's stored
source text and discard the hit when the percentage is below 50. -/
def fuzzy_search_model (retrieved : Option Doc) (q : String) : Option (Doc × ℚ) :=
  match retrieved with
  | none => none
  | some hit =>
    if percentage q hit.source_text < 50 then none
    else some (hit, percentage q hit.source_text)

/-- One entry of the `/translate` response (the ChatGPT branch carries no
`source_text` field, modelled as `none`). -/
structure TransSegResult where
  segment : String
  translated_text : String
  source_text : Option String
  similarity : ℚ
  source : String
deriving DecidableEq

/-- The per-segment branch of `/translate`: a surviving fuzzy hit with a
truthy (non-empty) stored translation is returned verbatim labelled
`"CAT Tool"` with its percentage; otherwise the fallback translator output
`mt` is returned labelled `"ChatGPT"` with similarity 0. -/
def translate_segment (retrieved : Option Doc) (mt : String) (seg : String) :
    TransSegResult :=
  match fuzzy_search_model retrieved seg with
  | some hp =>
    if hp.1.translated_text = "" then
      ⟨seg, mt, none, 0, "ChatGPT"⟩
    else
      ⟨seg, hp.1.translated_text, some hp.1.source_text, hp.2, "CAT Tool"⟩
  | none => ⟨seg, mt, none, 0, "ChatGPT"⟩

/-- The `/translate` route: normalize, validate, segment the normalized
source unconditionally, resolve every segment through the fuzzy filter
with fallback, and join the per-segment translations with single spaces in
input-segment order.  `rank` is the opaque retrieval oracle reading the
store, and `mt` the opaque fallback translator; the store is returned
untouched — no branch of the route writes a segment. -/
def translate_flow (sentences : String → List String)
    (rank : Store → String → Option Doc) (mt : String → String)
    (store : Store) (sl tl st : String) :
    Option (String × List TransSegResult) × Store :=
  let nt := normalize_text st
  if sl = "" ∨ tl = "" ∨ nt = "" then (none, store)
  else
    let results := (translate_segments sentences nt).map
      (fun seg => translate_segment (rank store seg) (mt seg) seg)
    (some (String.intercalate " " (results.map (fun r => r.translated_text)), results),
     store)

/-- C5: for a translate-flow segment with a retrieved fuzzy hit carrying a
stored translation, the hit is treated as a Miss (the fallback translator
answers) exactly when the computed similarity percentage is below 50; a
hit at exactly 50 is reused as the stored translation with its score, and
a hit at 49 falls back. -/
theorem fuzzy_threshold (hit : Doc) (q mt : String)
    (ht : hit.translated_text ≠ "") :
    (fuzzy_search_model (some hit) q = none ↔ percentage q hit.source_text < 50) ∧
      ((translate_segment (some hit) mt q).source = "ChatGPT" ↔
        percentage q hit.source_text < 50) ∧
      (percentage q hit.source_text = 50 →
        (translate_segment (some hit) mt q).source = "CAT Tool" ∧
          (translate_segment (some hit) mt q).translated_text = hit.translated_text ∧
          (translate_segment (some hit) mt q).similarity = 50) ∧
      (percentage q hit.source_text = 49 →
        (translate_segment (some hit) mt q).source = "ChatGPT" ∧
          (translate_segment (some hit) mt q).translated_text = mt) := by
  by_cases h : percentage q hit.source_text < 50
  · refine ⟨by simp [fuzzy_search_model, h], ?_, ?_, ?_⟩
    · simp [translate_segment, fuzzy_search_model, h]
    · intro h50; rw [h50] at h; norm_num at h
    · intro _; simp [translate_segment, fuzzy_search_model, h]
  · refine ⟨by simp [fuzzy_search_model, h], ?_, ?_, ?_⟩
    · simp [translate_segment, fuzzy_search_model, h, ht]
    · intro h50
      refine ⟨?_, ?_, ?_⟩ <;> simp [translate_segment, fuzzy_search_model, h, ht, h50]
    · intro h49; rw [h49] at h; norm_num at h

/-- The stored document reused at exactly 50% similarity in the C5
witness. -/
def hit50 : Doc := ⟨"en", "fr", "abcxy", "Bonjour."⟩

/-- First string of the 49%-similarity pair: `ab` repeated 50 times then
`a` (101 characters, bigrams ab by 50 and ba by 50). -/
def longA : String := ⟨(List.replicate 50 ['a', 'b']).flatten ++ ['a']⟩

/-- Second string of the 49%-similarity pair: `ab` repeated 25 times then
51 `c` (101 characters sharing exactly 49 bigrams with `longA`, so the
Dice score is 98/200 = 0.49). -/
def longB : String := ⟨(List.replicate 25 ['a', 'b']).flatten ++ List.replicate 51 'c'⟩

/-- The stored document discarded at 49% similarity in the C5 witness. -/
def hit49 : Doc := ⟨"en", "fr", longB, "T"⟩

theorem percentage_abcde_abcxy : percentage "abcde" "abcxy" = 50 := by
  have hI : countIntersection (bigramsOf (stripJsWs ("abcxy" : String).data))
      (buildBigrams (bigramsOf (stripJsWs ("abcde" : String).data)) []) 0 = 2 := by decide
  have hF := compareTwoStrings_formula "abcde" "abcxy" (by decide) (by decide)
  rw [hI] at hF
  have hL : ((stripJsWs ("abcde" : String).data).length +
      (stripJsWs ("abcxy" : String).data).length - 2 : ℕ) = 8 := by decide
  rw [hL] at hF
  have := percentage_eq_of "abcde" "abcxy" 50 (by rw [hF]; norm_num)
  rw [this]; norm_num

theorem percentage_longA_longB : percentage longA longB = 49 := by
  have hI : countIntersection (bigramsOf (stripJsWs longB.data))
      (buildBigrams (bigramsOf (stripJsWs longA.data)) []) 0 = 49 := by decide
  have hF := compareTwoStrings_formula longA longB (by decide) (by decide)
  rw [hI] at hF
  have hL : ((stripJsWs longA.data).length +
      (stripJsWs longB.data).length - 2 : ℕ) = 200 := by decide
  rw [hL] at hF
  have := percentage_eq_of longA longB 49 (by rw [hF]; norm_num)
  rw [this]; norm_num

/-- C5 witness: at similarity exactly 50 (query `"abcde"` against stored
`"abcxy"`) the stored translation is reused with the score attached; at
similarity 49 (the 101-character pair) the fallback translator answers. -/
theorem fuzzy_threshold_witness :
    percentage "abcde" "abcxy" = 50 ∧
      (translate_segment (some hit50) "MT" "abcde").source = "CAT Tool" ∧
      (translate_segment (some hit50) "MT" "abcde").translated_text = "Bonjour." ∧
      percentage longA longB = 49 ∧
      (translate_segment (some hit49) "MT" longA).source = "ChatGPT" ∧
      (translate_segment (some hit49) "MT" longA).translated_text = "MT" := by
  have h50 := (fuzzy_threshold hit50 "abcde" "MT" (by decide)).2.2.1
    percentage_abcde_abcxy
  have h49 := (fuzzy_threshold hit49 longA "MT" (by decide)).2.2.2
    percentage_longA_longB
  exact ⟨percentage_abcde_abcxy, h50.1, h50.2.1, percentage_longA_longB,
    h49.1, h49.2⟩

/-- C7: the translate flow is read-only with respect to the segment store —
for every tokenizer, retrieval oracle, fallback translator, store and
request (including requests whose segments all fall back to the
translator), the store after the request equals the store before it, and
hence every exact lookup, in particular one for a segment absent before
the request, returns afterwards exactly what it returned before. -/
theorem translate_readonly (sentences : String → List String)
    (rank : Store → String → Option Doc) (mt : String → String)
    (store : Store) (sl tl st : String) :
    (translate_flow sentences rank mt store sl tl st).2 = store ∧
      ∀ sl2 tl2 x,
        find_translation_segment (translate_flow sentences rank mt store sl tl st).2
            sl2 tl2 x
          = find_translation_segment store sl2 tl2 x := by
  have h : (translate_flow sentences rank mt store sl tl st).2 = store := by
    unfold translate_flow
    dsimp only
    split
    · rfl
    · rfl
  exact ⟨h, fun sl2 tl2 x => by rw [h]⟩

theorem translate_segment_segment (retrieved : Option Doc) (mt seg : String) :
    (translate_segment retrieved mt seg).segment = seg := by
  unfold translate_segment
  cases fuzzy_search_model retrieved seg with
  | none => rfl
  | some hp =>
    by_cases h : hp.1.translated_text = ""
    · simp [h]
    · simp [h]

/-- C10: for every translate request that passes validation, the top-level
`translated_text` of the response is exactly the per-segment
`translated_text` values joined with single spaces in input-segment order
— the response segments are in bijection with the input segments, in
order — for every retrieval oracle and fallback translator, hence
regardless of whether each segment was answered from storage or by the
fallback. -/
theorem translate_join (sentences : String → List String)
    (rank : Store → String → Option Doc) (mt : String → String)
    (store : Store) (sl tl st : String)
    (resp : String × List TransSegResult)
    (h : (translate_flow sentences rank mt store sl tl st).1 = some resp) :
    resp.1 = String.intercalate " " (resp.2.map (fun r => r.translated_text)) ∧
      resp.2.map (fun r => r.segment)
        = translate_segments sentences (normalize_text st) := by
  unfold translate_flow at h
  dsimp only at h
  by_cases hv : sl = "" ∨ tl = "" ∨ normalize_text st = ""
  · rw [if_pos hv] at h
    exact absurd h (by simp)
  · rw [if_neg hv] at h
    have h2 := Option.some.inj h
    subst h2
    refine ⟨rfl, ?_⟩
    simp [List.map_map, Function.comp_def, translate_segment_segment]

/-- C10 witness: a one-segment request answered by the fallback — the
joined text equals the single segment translation and the response segment
list mirrors the input segmentation. -/
theorem translate_join_witness :
    ("B" : String) = String.intercalate " "
        (([⟨"Hi", "B", none, 0, "ChatGPT"⟩] : List TransSegResult).map
          (fun r => r.translated_text)) ∧
      ([⟨"Hi", "B", none, 0, "ChatGPT"⟩] : List TransSegResult).map
          (fun r => r.segment)
        = translate_segments (fun s => [s]) (normalize_text "Hi") :=
  translate_join (fun s => [s]) (fun _ _ => none) (fun _ => "B") [] "en" "fr" "Hi"
    ("B", [⟨"Hi", "B", none, 0, "ChatGPT"⟩]) (by decide)
